import Mathlib

/-!
Verification of the TeamViewer-Clone repository (Python sources:
`Encryption.py`, `FunctionsModule.py`, `ServerThreads.py`, `ClientThreads.py`)
against its natural-language specification.

Bytes are modelled as `List Nat` (each element a byte value). The AES-256
block permutation itself lives in the external `cryptography` library, so it
is modelled as an abstract pair of functions on 16-byte blocks; everything
the repository code does around it (PKCS7 padding, CBC chaining, the IV,
framing, the dispatch loops) is translated directly from the source.
-/

/-- Byte strings: lists of byte values. -/
abbrev Bytes := List Nat

/-- `Encryption.py` uses `padding.PKCS7(128)`: the block size is 128 bits,
i.e. 16 bytes. -/
def blockSize : Nat := 16

/-- PKCS7 padding at 16-byte block size, as performed by
`padder.update(text) + padder.finalize()` in `encrypt_aes`
(`Encryption.py` lines 134-135): append `k = 16 - len % 16` bytes of
value `k` (a full block of value 16 when the length is already a
multiple of 16). -/
def pkcs7Pad (text : Bytes) : Bytes :=
  let k := blockSize - text.length % blockSize
  text ++ List.replicate k k

/-- PKCS7 unpadding as performed by the library's
`unpadder.update(...) + unpadder.finalize()` in `decrypt_aes`
(`Encryption.py` lines 167-168): the input length must be a positive
multiple of 16, the last byte `k` must satisfy `1 ≤ k ≤ 16`, and the last
`k` bytes must all equal `k`; otherwise the library raises (modelled as
`none`). -/
def pkcs7Unpad (padded : Bytes) : Option Bytes :=
  let k := padded.getLastD 0
  if padded.length % blockSize = 0 ∧ 1 ≤ k ∧ k ≤ blockSize ∧
      k ≤ padded.length ∧
      (padded.drop (padded.length - k)).all (· = k) then
    some (padded.take (padded.length - k))
  else
    none

/-- Byte-wise XOR of two equal-length byte strings (the CBC chaining step
inside the library's CBC mode used by `Cipher(..., modes.CBC(iv))`). -/
def xorBytes (a b : Bytes) : Bytes :=
  List.zipWith (· ^^^ ·) a b

/-- Fuel-indexed helper for `toBlocks`; the fuel only drives structural
recursion and is irrelevant once it is at least the list length. -/
def toBlocksAux : Nat → Bytes → List Bytes
  | _, [] => []
  | 0, _ :: _ => []
  | fuel + 1, b :: rest =>
    (b :: rest).take blockSize :: toBlocksAux fuel ((b :: rest).drop blockSize)

/-- Split a byte string into consecutive 16-byte blocks (the block
traversal of the library's CBC mode). -/
def toBlocks (bs : Bytes) : List Bytes :=
  toBlocksAux bs.length bs

/-- CBC encryption over 16-byte blocks with block permutation `E`:
`c_i = E (p_i XOR c_{i-1})`, with `c_0 = iv`. -/
def cbcEncrypt (E : Bytes → Bytes) (prev : Bytes) : List Bytes → List Bytes
  | [] => []
  | p :: ps =>
    let c := E (xorBytes p prev)
    c :: cbcEncrypt E c ps

/-- CBC decryption over 16-byte blocks with inverse block permutation `D`:
`p_i = D c_i XOR c_{i-1}`, with `c_0 = iv`. -/
def cbcDecrypt (D : Bytes → Bytes) (prev : Bytes) : List Bytes → List Bytes
  | [] => []
  | c :: cs => xorBytes (D c) prev :: cbcDecrypt D c cs

/-- `encrypt_aes(key, text)` from `Encryption.py` lines 115-143: PKCS7-pad
the plaintext, then AES-CBC-encrypt it under `key` with a fresh 16-byte
IV, returning `(iv, ciphertext)`. The random IV from `os.urandom(16)` is
modelled as the explicit argument `iv`; the AES-256 block permutation
(from the external `cryptography` library) is the abstract parameter
`E`. -/
def encrypt_aes (E : Bytes → Bytes → Bytes) (key : Bytes) (iv : Bytes)
    (text : Bytes) : Bytes × Bytes :=
  (iv, (cbcEncrypt (E key) iv (toBlocks (pkcs7Pad text))).flatten)

/-- `decrypt_aes(key, iv, ciphertext)` from `Encryption.py` lines 146-169:
AES-CBC-decrypt under `key` and `iv`, then strip PKCS7 padding. The
library raises on a ciphertext whose length is not a multiple of the
block size and on corrupt padding (modelled as `none`); the AES-256
inverse block permutation is the abstract parameter `D`. -/
def decrypt_aes (D : Bytes → Bytes → Bytes) (key : Bytes) (iv : Bytes)
    (ciphertext : Bytes) : Option Bytes :=
  if ciphertext.length % blockSize = 0 then
    pkcs7Unpad (cbcDecrypt (D key) iv (toBlocks ciphertext)).flatten
  else
    none

/-- The identity block permutation, a degenerate but admissible
instantiation of the abstract AES core (used only to evaluate the
round-trip theorems at concrete inputs). -/
def idCipher : Bytes → Bytes → Bytes := fun _ b => b

/-!
`recv_all` from `FunctionsModule.py` lines 251-268. The socket is modelled
by `avail`, the byte sequence the peer will deliver before the stream
closes, together with a chunking schedule `sched`: the `i`-th entry is how
many bytes the network hands over on the `i`-th `recv` call (each actual
`recv` on an open stream returns at least 1 byte and at most the requested
count, so the schedule is clamped into that range). A `recv` that returns
no bytes means the connection closed, which `recv_all` turns into a raised
`ConnectionError` (modelled as `Except.error ()`).
-/

/-- `MAX_CHUNK_SIZE` from `FunctionsModule.py` line 8. -/
def MAX_CHUNK_SIZE : Nat := 4096

/-- The count requested from `sock.recv`:
`min(MAX_CHUNK_SIZE, num_bytes - len(data))` (`FunctionsModule.py`
line 263). -/
def recvWant (n dlen : Nat) : Nat := min MAX_CHUNK_SIZE (n - dlen)

/-- How many bytes the network offers on this call: the head of the
chunking schedule, clamped to at least 1 (an open TCP `recv` never returns
0 bytes), or the full requested count if the schedule is exhausted. -/
def recvSize (sched : List Nat) (want : Nat) : Nat :=
  match sched with
  | [] => want
  | s₀ :: _ => max 1 s₀

/-- The byte string one `sock.recv` call returns: at most the requested
count, at most the scheduled chunk, and at most what the peer will ever
deliver; empty exactly when the stream is exhausted. -/
def recvPacket (avail : Bytes) (sched : List Nat) (n dlen : Nat) : Bytes :=
  avail.take (min (recvSize sched (recvWant n dlen)) (recvWant n dlen))

/-- The `while len(data) < num_bytes` loop of `recv_all`
(`FunctionsModule.py` lines 261-267), with explicit fuel for structural
recursion; `avail.length` fuel is always sufficient because every
successful `recv` consumes at least one byte of `avail`. -/
def recvAllGo : Nat → Bytes → List Nat → Nat → Bytes → Except Unit Bytes
  | fuel, avail, sched, n, data =>
    if data.length < n then
      if (recvPacket avail sched n data.length).length = 0 then
        .error ()
      else
        match fuel with
        | 0 => .error ()
        | fuel + 1 =>
          recvAllGo fuel
            (avail.drop (recvPacket avail sched n data.length).length)
            sched.tail n (data ++ recvPacket avail sched n data.length)
    else
      .ok data

/-- `recv_all(sock, num_bytes)`: receive exactly `num_bytes` bytes,
accumulating from `data = b''`, or raise `ConnectionError` if the stream
closes first. -/
def recv_all (avail : Bytes) (sched : List Nat) (n : Nat) :
    Except Unit Bytes :=
  recvAllGo avail.length avail sched n []

/-!
The Command Dispatcher (`CommandConsumer.run`, `ServerThreads.py` lines
320-401) and the operator-side registry (`Server.__init__` /
`Server.run`, lines 24-97). Peer identities (transport addresses) are
abstracted as naturals; the registry maps each identity to its handler's
symmetric key (`ClientHandler.aes_key`). A send failure on a socket is
modelled by the oracle `fails`; the observable effects of one dispatched
queue entry are collected in `StepRes`.
-/

abbrev Addr := Nat

abbrev Key := Bytes

/-- Python's `str.startswith(p)`, as a prefix test on the character
sequence. -/
def strStartsWith (s p : String) : Bool := p.data.isPrefixOf s.data

/-- One encrypted command record written to a peer's socket: the target
address, the symmetric key handed to `Encryption.encrypt_aes`, and the
plaintext command. -/
structure SendRec where
  addr : Addr
  key : Key
  cmd : String
deriving DecidableEq

/-- Observable outcome of dispatching one command-queue entry: the pause
flag, the registry after the dispatch, the successful sends in order, the
handlers stopped, and the identities for which `app.cleanup` resp.
`app.kick` callbacks were scheduled. -/
structure StepRes where
  pauseFlag : Bool
  registry : List (Addr × Key)
  sends : List SendRec
  stopped : List Addr
  cleanups : List Addr
  kicksUI : List Addr
deriving DecidableEq

/-- The per-peer send loop shared by the `pause`/`unpause` and `resize`
branches (`ServerThreads.py` lines 340-351 and 365-375): iterate over a
snapshot of the registry, skip the originating identity, record a
successful send, and on failure record the peer as stopped/removed. -/
def broadcastSends (origin : Option Addr) (cmd : String)
    (fails : Addr → Bool) : List (Addr × Key) → List SendRec × List Addr
  | [] => ([], [])
  | (a, k) :: rest =>
    let sf := broadcastSends origin cmd fails rest
    if some a ≠ origin then
      if fails a then (sf.1, a :: sf.2)
      else (⟨a, k, cmd⟩ :: sf.1, sf.2)
    else sf

/-- Target selection of the `resize` branch (`ServerThreads.py` lines
356-363): broadcast when the queue entry carries no identity, otherwise
the named peer if and only if it is registered. -/
def resizeTargets (origin : Option Addr) (reg : List (Addr × Key)) :
    List (Addr × Key) :=
  match origin with
  | none => reg
  | some a =>
    match reg.lookup a with
    | some k => [(a, k)]
    | none => []

/-- `CommandConsumer.run` dispatch of one dequeued `(client_address, cmd)`
entry (`ServerThreads.py` lines 328-399): the `pause`/`unpause` family
updates the shared pause flag and broadcasts to every registered peer
except the originator; the `resize` family sends to the selected targets;
every other command goes to exactly the named peer if registered, `kick`
additionally stopping and removing it after a successful send. A send
failure stops the peer's handler, deletes its registry entry and
schedules the appropriate UI callback, without aborting the loop. -/
def commandStep (pauseFlag : Bool) (reg : List (Addr × Key))
    (origin : Option Addr) (cmd : String) (fails : Addr → Bool) : StepRes :=
  if cmd = "pause" ∨ cmd = "unpause" then
    let sf := broadcastSends origin cmd fails reg
    { pauseFlag := decide (cmd = "pause")
      registry := reg.filter (fun p => !(decide (some p.1 ≠ origin) && fails p.1))
      sends := sf.1
      stopped := sf.2
      cleanups := sf.2
      kicksUI := [] }
  else if strStartsWith cmd "resize" then
    let targets := resizeTargets origin reg
    let sf := broadcastSends none cmd fails targets
    { pauseFlag := pauseFlag
      registry := reg.filter
        (fun p => !((targets.any (fun q => q.1 == p.1)) && fails p.1))
      sends := sf.1
      stopped := sf.2
      cleanups := sf.2
      kicksUI := [] }
  else
    match origin with
    | none =>
      { pauseFlag := pauseFlag, registry := reg, sends := []
        stopped := [], cleanups := [], kicksUI := [] }
    | some tgt =>
      match reg.lookup tgt with
      | none =>
        { pauseFlag := pauseFlag, registry := reg, sends := []
          stopped := [], cleanups := [], kicksUI := [] }
      | some key =>
        if fails tgt then
          { pauseFlag := pauseFlag
            registry := reg.filter (fun p => !(p.1 == tgt))
            sends := [], stopped := [tgt], cleanups := [], kicksUI := [tgt] }
        else if cmd = "kick" then
          { pauseFlag := pauseFlag
            registry := reg.filter (fun p => !(p.1 == tgt))
            sends := [⟨tgt, key, cmd⟩], stopped := [tgt], cleanups := []
            kicksUI := [] }
        else
          { pauseFlag := pauseFlag, registry := reg
            sends := [⟨tgt, key, cmd⟩], stopped := [], cleanups := []
            kicksUI := [] }

/-!
Operator-side key ownership (`Server.__init__`, `ServerThreads.py` lines
24-55, and `Server.run` lines 93-97): the server generates one AES key at
construction and hands that same key to every `ClientHandler` it registers.
-/

/-- The operator's state: the single symmetric key generated by
`Encryption.generate_aes_key()` at construction, and the registry mapping
each connected peer to its handler's key (`ClientHandler.aes_key`). -/
structure ServerSt where
  aesKey : Key
  registry : List (Addr × Key)
deriving DecidableEq

/-- `Server.__init__`: the AES key is generated once; the registry starts
empty. -/
def initServer (k : Key) : ServerSt := ⟨k, []⟩

/-- Registration after a completed handshake (`Server.run` lines 93-97):
`ClientHandler(client_socket, client_address, frame_queue, self.aes_key,
self.app)` is stored under the peer's address — always with the server's
own `aes_key`. A re-registration of an existing address overwrites the
entry in place, as a Python dict assignment does. -/
def registerPeer (s : ServerSt) (a : Addr) : ServerSt :=
  ⟨s.aesKey,
    if s.registry.any (fun p => p.1 == a) then
      s.registry.map (fun p => if p.1 == a then (a, s.aesKey) else p)
    else
      s.registry ++ [(a, s.aesKey)]⟩

/-- Removal of a peer's entry (the `del self.clients_dict[...]` paths in
`CommandConsumer.run` and the `app.cleanup` path). -/
def removePeer (s : ServerSt) (a : Addr) : ServerSt :=
  ⟨s.aesKey, s.registry.filter (fun p => !(p.1 == a))⟩

/-- The registry-mutating events of one operator run. -/
inductive ServerOp where
  | register (a : Addr)
  | remove (a : Addr)
deriving DecidableEq

def applyOp (s : ServerSt) : ServerOp → ServerSt
  | .register a => registerPeer s a
  | .remove a => removePeer s a

def runOps (s : ServerSt) : List ServerOp → ServerSt
  | [] => s
  | op :: ops => runOps (applyOp s op) ops

/-!
The Frame Consumer (`FrameConsumer.run`, `ServerThreads.py` lines 260-297)
and the peer-side Frame Publisher (`ScreenShare.run`, `ClientThreads.py`
lines 197-247). Wall-clock instants and durations are modelled in integer
milliseconds, which represents the source's float constants exactly:
`max_frame_age = 0.5` s is 500 ms, the `1 / FPS = 0.1` s target period is
100 ms, and the 0.5 s / 1 s backoffs are 500 ms / 1000 ms.
-/

/-- `FrameConsumer.max_frame_age = 0.5` seconds, in milliseconds. -/
def max_frame_age : Int := 500

/-- The renderer-facing state read by the Frame Consumer:
`app.fullscreen_widget` (truthiness of the exclusive full-view widget) and
`app.fullscreen_address` (the peer shown in that view, when any). -/
structure RendererState where
  fullscreen_widget : Bool
  fullscreen_address : Option Addr
deriving DecidableEq

/-- The decision body of `FrameConsumer.run` for one dequeued
`(client_address, frame, timestamp)` (`ServerThreads.py` lines 281-288):
deliver to `app.update_screen` only if the frame's age is at most
`max_frame_age` and either no fullscreen widget exists or the fullscreen
peer is the frame's sender; otherwise the frame is dropped. -/
def frameStep (app : RendererState) (now timestamp : Int)
    (client_address : Addr) : Bool :=
  if now - timestamp ≤ max_frame_age then
    if !app.fullscreen_widget || app.fullscreen_address == some client_address
    then true
    else false
  else
    false

/-- The per-cycle inputs of one `ScreenShare.run` iteration: the pause
flag, the outcome of each fallible stage (`none` models a raised
exception, an explicit empty result models the `if not ...` checks), the
outcome of the three socket writes, and the measured wall-clock cost of
the cycle in milliseconds. -/
structure CycleIn where
  paused : Bool
  captureRes : Option Bytes
  compressRes : Option Bytes
  encryptRes : Option Bytes
  sendOk : Bool
  elapsed : Int
deriving DecidableEq

/-- The observable outcome of one `ScreenShare.run` iteration: how long
the cycle sleeps before the next iteration (ms) and whether a frame was
sent. -/
structure CycleOut where
  sleepMs : Int
  sent : Bool
deriving DecidableEq

/-- One iteration of `ScreenShare.run` (`ClientThreads.py` lines 201-247):
paused cycles sleep 0.5 s; an empty capture/compress/encrypt result is
logged and sleeps 0.5 s; a raised exception is caught by the outer
handler and sleeps 1 s; a successful send sleeps the remainder of the
100 ms target period, clamped at zero. -/
def screenShareCycle (c : CycleIn) : CycleOut :=
  if c.paused then ⟨500, false⟩
  else
    match c.captureRes with
    | none => ⟨1000, false⟩
    | some image_bytes =>
      if image_bytes = [] then ⟨500, false⟩
      else
        match c.compressRes with
        | none => ⟨1000, false⟩
        | some compressed_bytes =>
          if compressed_bytes = [] then ⟨500, false⟩
          else
            match c.encryptRes with
            | none => ⟨1000, false⟩
            | some encrypted =>
              if encrypted = [] then ⟨500, false⟩
              else
                if c.sendOk then ⟨max 0 (100 - c.elapsed), true⟩
                else ⟨1000, false⟩

/-- The `while not self.stop_event.is_set()` loop of `ScreenShare.run`:
each entry pairs the stop flag observed at the top of the iteration with
that iteration's inputs; the loop exits exactly when the flag is set. -/
def screenShareRun : List (Bool × CycleIn) → List CycleOut
  | [] => []
  | (stop, c) :: rest =>
    if stop then [] else screenShareCycle c :: screenShareRun rest

/-- A cycle in which capture, compression or encryption failed (raised or
returned an empty result). -/
def cycleStageFailed (c : CycleIn) : Prop :=
  c.captureRes = none ∨ c.captureRes = some [] ∨
  c.compressRes = none ∨ c.compressRes = some [] ∨
  c.encryptRes = none ∨ c.encryptRes = some []

/-!
The Frame Ingestor (`ClientHandler.run`, `ServerThreads.py` lines
206-250): reads length-framed, encrypted, compressed frame records from
one peer's socket and enqueues the decoded frames. The socket is the byte
sequence `stream`; decryption and decompression are oracles (`none`
models a raised exception); the FPS pacing sleep has no observable effect
here and is not modelled. Exhausting the stream models the peer closing
the connection (`recv_all` raises `ConnectionError`).
-/

/-- `int.from_bytes(bs, byteorder='big')`. -/
def fromBytesBE (bs : Bytes) : Nat :=
  bs.foldl (fun acc b => acc * 256 + b) 0

/-- The observable outcome of one `ClientHandler.run` loop: the frames
enqueued (in order), whether the socket was closed by the `finally`
block, and whether `app.cleanup` was scheduled for this identity. -/
structure HandlerResult where
  frames : List Bytes
  socketClosed : Bool
  cleanupScheduled : Bool
deriving DecidableEq

/-- `ClientHandler.run` (`ServerThreads.py` lines 206-250): per iteration
read an 8-byte big-endian size, raise `ConnectionError` if it is zero,
read the 16-byte IV and the ciphertext, decrypt and decompress, and
enqueue the frame. Any error (including a short read at end of stream)
ends the loop; the `finally` block always closes the socket, and
`app.cleanup` is scheduled unless `app.shutdown_event` is set. -/
def handlerRun (shutdown : Bool) (decrypt : Bytes → Bytes → Option Bytes)
    (decompress : Bytes → Option Bytes) (stream : Bytes)
    (acc : List Bytes) : HandlerResult :=
  if stream.length < 8 then
    ⟨acc, true, !shutdown⟩
  else
    let image_size := fromBytesBE (stream.take 8)
    if image_size = 0 then
      ⟨acc, true, !shutdown⟩
    else if stream.length < 24 + image_size then
      ⟨acc, true, !shutdown⟩
    else
      let iv := (stream.drop 8).take 16
      let encrypted_img := (stream.drop 24).take image_size
      match decrypt iv encrypted_img with
      | none => ⟨acc, true, !shutdown⟩
      | some frame =>
        match decompress frame with
        | none => ⟨acc, true, !shutdown⟩
        | some img =>
          handlerRun shutdown decrypt decompress
            (stream.drop (24 + image_size)) (acc ++ [img])
termination_by stream.length
decreasing_by
  simp only [List.length_drop]
  omega

/-!
The peer-side command loop and teardown (`Client.run` / `Client.stop`,
`ClientThreads.py` lines 54-169). Commands are modelled as the decrypted
UTF-8 strings the loop dispatches on; exhausting the command list models
the peer closing the connection (`recv_all` raises `ConnectionError`,
caught with reason "session closed"). Input injection, screen capture and
socket writes are external; only the state the loop and `stop` mutate is
tracked.
-/

/-- Split a character list on `':'`, as Python's `command.split(":")`. -/
def splitOnColon : List Char → List (List Char)
  | [] => [[]]
  | c :: rest =>
    match splitOnColon rest with
    | [] => [[]]
    | grp :: grps =>
      if c = ':' then [] :: grp :: grps else (c :: grp) :: grps

/-- Parse a decimal numeral (a simplified Python `int(...)`: at least one
digit, digits only). -/
def parseNatDigits : List Char → Option Nat
  | [] => none
  | cs =>
    if cs.all (fun c => c.isDigit) then
      some (cs.foldl (fun acc c => acc * 10 + (c.toNat - '0'.toNat)) 0)
    else
      none

/-- Parse `resize:<w>:<h>` into `(w, h)` (`ClientThreads.py` lines 84-92:
`_, width, height = command.split(":")` then `int(...)`; a `ValueError`
from the unpacking or the conversion is caught and the command is
ignored). -/
def parseResize (command : String) : Option (Nat × Nat) :=
  match splitOnColon command.data with
  | [_, w, h] =>
    match parseNatDigits w, parseNatDigits h with
    | some width, some height => some (width, height)
    | _, _ => none
  | _ => none

/-- The peer-side state mutated by the command loop and `Client.stop`:
the one-shot disconnect guard `_disconnected`, the `stop_event`, the
Frame Publisher (present after `run` starts it, stopped flag), the input
suppression (`UserBlocker` listeners active, `block_event`), the
publisher's pause flag, the capture resolution, the socket, and the
arguments of every `disconnect_callback` invocation so far. -/
structure ClientState where
  disconnected : Bool
  stopEventSet : Bool
  screenSharePresent : Bool
  screenShareStopped : Bool
  blocking : Bool
  blockEvent : Bool
  pauseEvent : Bool
  imgW : Nat
  imgH : Nat
  socketClosed : Bool
  callbacks : List String
deriving DecidableEq

/-- The client state right after `Client.run` has connected, completed the
key exchange and started the Frame Publisher (`ClientThreads.py` lines
31-66): nothing stopped, nothing blocked, default 1920×1080 capture. -/
def initClientState : ClientState :=
  ⟨false, false, true, false, false, false, false, 1920, 1080, false, []⟩

/-- `Client.stop(stop_reason)` (`ClientThreads.py` lines 150-169): under
the lock, a second call returns at once; the first call sets the guard and
the stop event, stops the Frame Publisher if present, releases input
suppression, closes the socket and invokes the disconnect callback with
the reason. -/
def clientStop (stop_reason : String) (s : ClientState) : ClientState :=
  if s.disconnected then s
  else
    { s with
      disconnected := true
      stopEventSet := true
      screenShareStopped := if s.screenSharePresent then true
        else s.screenShareStopped
      blocking := false
      socketClosed := true
      callbacks := s.callbacks ++ [stop_reason] }

/-- The effect of dispatching one decrypted non-`kick` command
(`ClientThreads.py` lines 78-118): the first `if`-chain handles input
injection (external, no tracked state), `resize` (updates the capture
resolution when the command parses); the second chain toggles
block/unblock (flag plus suppression) and pause/unpause. -/
def clientCmd (command : String) (s : ClientState) : ClientState :=
  let s1 :=
    if strStartsWith command "key_down" || strStartsWith command "key_up"
        || strStartsWith command "button" then
      s
    else if strStartsWith command "resize" then
      match parseResize command with
      | some (width, height) => { s with imgW := width, imgH := height }
      | none => s
    else
      s
  if command = "block" then
    { s1 with blockEvent := true, blocking := true }
  else if command = "unblock" then
    { s1 with blockEvent := false, blocking := false }
  else if command = "pause" then
    { s1 with pauseEvent := true }
  else if command = "unpause" then
    { s1 with pauseEvent := false }
  else
    s1

/-- The command-receive loop of `Client.run` (`ClientThreads.py` lines
68-126), over the decrypted command sequence: it exits with
"kicked from session" on a `kick` command, with "session closed" when the
stream ends (`ConnectionError`), and with the initial "client crashed"
reason when the stop event is already set at the top of an iteration. -/
def clientLoop : List String → ClientState → String × ClientState
  | [], s => ("session closed", s)
  | command :: rest, s =>
    if s.stopEventSet then ("client crashed", s)
    else if command = "kick" then ("kicked from session", s)
    else clientLoop rest (clientCmd command s)

/-- `Client.run`'s overall effect: run the command loop, then the
`finally` block calls `self.stop(stop_reason)`. -/
def clientRun (cmds : List String) (s : ClientState) : ClientState :=
  clientStop (clientLoop cmds s).1 (clientLoop cmds s).2

lemma pkcs7Pad_def (t : Bytes) :
    pkcs7Pad t = t ++ List.replicate (blockSize - t.length % blockSize)
      (blockSize - t.length % blockSize) := rfl

lemma pkcs7Pad_length (t : Bytes) :
    (pkcs7Pad t).length = blockSize * (t.length / blockSize + 1) := by
  simp only [pkcs7Pad_def, List.length_append, List.length_replicate, blockSize]
  omega

lemma pkcs7Unpad_pad (t : Bytes) : pkcs7Unpad (pkcs7Pad t) = some t := by
  have hlt : t.length % blockSize < blockSize := Nat.mod_lt _ (by decide)
  obtain ⟨j, hj⟩ : ∃ j, blockSize - t.length % blockSize = j + 1 :=
    ⟨blockSize - t.length % blockSize - 1, by omega⟩
  have hpad : pkcs7Pad t = (t ++ List.replicate j (j + 1)) ++ [j + 1] := by
    rw [pkcs7Pad_def, hj, List.replicate_succ', ← List.append_assoc]
  have hlen : (pkcs7Pad t).length = t.length + (j + 1) := by
    rw [pkcs7Pad_def, hj]; simp
  have hlast : (pkcs7Pad t).getLastD 0 = j + 1 := by
    rw [hpad]; simp
  have hdrop : (pkcs7Pad t).drop ((pkcs7Pad t).length - (j + 1))
      = List.replicate (j + 1) (j + 1) := by
    rw [hlen, Nat.add_sub_cancel, pkcs7Pad_def, hj]
    exact List.drop_left t _
  have htake : (pkcs7Pad t).take ((pkcs7Pad t).length - (j + 1)) = t := by
    rw [hlen, Nat.add_sub_cancel, pkcs7Pad_def, hj]
    exact List.take_left t _
  have hmod : (pkcs7Pad t).length % blockSize = 0 := by
    rw [pkcs7Pad_length]
    simp [Nat.mul_mod_right]
  rw [pkcs7Unpad]
  simp only [hlast]
  rw [if_pos ?cond]
  · rw [htake]
  case cond =>
    refine ⟨hmod, by omega, by omega, by omega, ?_⟩
    rw [hdrop]
    simp [List.all_eq_true, List.eq_of_mem_replicate]

lemma toBlocksAux_nil (fuel : Nat) : toBlocksAux fuel [] = [] := by
  cases fuel <;> rfl

lemma toBlocksAux_congr (f₁ : Nat) : ∀ (f₂ : Nat) (bs : Bytes),
    bs.length ≤ f₁ → bs.length ≤ f₂ → toBlocksAux f₁ bs = toBlocksAux f₂ bs := by
  induction f₁ with
  | zero =>
    intro f₂ bs h₁ _
    have : bs = [] := List.eq_nil_of_length_eq_zero (by omega)
    subst this
    rw [toBlocksAux_nil, toBlocksAux_nil]
  | succ f₁ ih =>
    intro f₂ bs h₁ h₂
    cases bs with
    | nil => rw [toBlocksAux_nil, toBlocksAux_nil]
    | cons b rest =>
      cases f₂ with
      | zero => simp at h₂
      | succ f₂ =>
        have hbk : 1 ≤ blockSize := by decide
        simp only [toBlocksAux]
        rw [ih f₂ ((b :: rest).drop blockSize)
          (by simp only [List.length_drop]; simp at h₁ ⊢; omega)
          (by simp only [List.length_drop]; simp at h₂ ⊢; omega)]

lemma toBlocksAux_toBlocks (fuel : Nat) (bs : Bytes) (h : bs.length ≤ fuel) :
    toBlocksAux fuel bs = toBlocks bs :=
  toBlocksAux_congr fuel bs.length bs h le_rfl

lemma toBlocks_cons16 (blk rest : Bytes) (h : blk.length = blockSize) :
    toBlocks (blk ++ rest) = blk :: toBlocks rest := by
  obtain ⟨b, tl, rfl⟩ : ∃ b tl, blk = b :: tl := by
    cases blk with
    | nil => simp [blockSize] at h
    | cons b tl => exact ⟨b, tl, rfl⟩
  have hlen : ((b :: tl) ++ rest).length = (tl.length + rest.length) + 1 := by
    simp
  rw [toBlocks, hlen]
  show ((b :: tl) ++ rest).take blockSize ::
      toBlocksAux (tl.length + rest.length) (((b :: tl) ++ rest).drop blockSize)
      = (b :: tl) :: toBlocks rest
  rw [List.take_left' h, List.drop_left' h,
    toBlocksAux_toBlocks _ _ (by omega)]

lemma toBlocks_spec : ∀ (m : Nat) (bs : Bytes), bs.length = blockSize * m →
    (∀ blk ∈ toBlocks bs, blk.length = blockSize) ∧
      (toBlocks bs).flatten = bs ∧ (toBlocks bs).length = m
  | 0, bs, h => by
    have : bs = [] := List.eq_nil_of_length_eq_zero (by omega)
    subst this
    exact ⟨by simp [toBlocks, toBlocksAux], rfl, rfl⟩
  | m + 1, bs, h => by
    have hbk : 1 ≤ blockSize := by decide
    have h16 : blockSize ≤ bs.length := by
      rw [h]; have : 1 ≤ m + 1 := by omega
      calc blockSize = blockSize * 1 := by omega
        _ ≤ blockSize * (m + 1) := Nat.mul_le_mul_left _ this
    have htk : (bs.take blockSize).length = blockSize := by
      simp [List.length_take]; omega
    have hdr : (bs.drop blockSize).length = blockSize * m := by
      simp only [List.length_drop, h]
      have : blockSize * (m + 1) = blockSize * m + blockSize := by ring
      omega
    obtain ⟨hall, hflat, hcount⟩ := toBlocks_spec m (bs.drop blockSize) hdr
    have hsplit : toBlocks bs
        = bs.take blockSize :: toBlocks (bs.drop blockSize) := by
      conv_lhs => rw [← List.take_append_drop blockSize bs]
      exact toBlocks_cons16 _ _ htk
    refine ⟨?_, ?_, ?_⟩
    · intro blk hblk
      rw [hsplit] at hblk
      rcases List.mem_cons.mp hblk with h' | h'
      · exact h' ▸ htk
      · exact hall _ h'
    · rw [hsplit]
      simp only [List.flatten_cons, hflat, List.take_append_drop]
    · rw [hsplit]; simp [hcount]

lemma toBlocks_flatten : ∀ (bls : List Bytes),
    (∀ b ∈ bls, b.length = blockSize) → toBlocks bls.flatten = bls
  | [], _ => by simp [toBlocks, toBlocksAux]
  | blk :: rest, h => by
    rw [List.flatten_cons, toBlocks_cons16 _ _ (h blk (by simp)),
      toBlocks_flatten rest (fun b hb => h b (by simp [hb]))]

lemma flatten_length_of_blocks : ∀ (bls : List Bytes),
    (∀ b ∈ bls, b.length = blockSize) →
    bls.flatten.length = blockSize * bls.length
  | [], _ => by simp
  | blk :: rest, h => by
    simp only [List.flatten_cons, List.length_append, List.length_cons,
      flatten_length_of_blocks rest (fun b hb => h b (by simp [hb])),
      h blk (by simp)]
    ring

lemma xorBytes_length (a b : Bytes) :
    (xorBytes a b).length = min a.length b.length := by
  simp [xorBytes]

lemma xorBytes_cancel : ∀ (p c : Bytes), p.length = c.length →
    xorBytes (xorBytes p c) c = p
  | [], _, _ => by simp [xorBytes]
  | p :: ps, [], h => by simp at h
  | p :: ps, c :: cs, h => by
    simp only [xorBytes, List.zipWith_cons_cons, List.cons.injEq]
    refine ⟨?_, xorBytes_cancel ps cs (by simpa using h)⟩
    exact Nat.xor_cancel_right c p

lemma cbcEncrypt_blocks (E : Bytes → Bytes)
    (hE : ∀ b, b.length = blockSize → (E b).length = blockSize) :
    ∀ (ps : List Bytes) (prev : Bytes), prev.length = blockSize →
      (∀ p ∈ ps, p.length = blockSize) →
      (∀ c ∈ cbcEncrypt E prev ps, c.length = blockSize) ∧
        (cbcEncrypt E prev ps).length = ps.length
  | [], prev, _, _ => by simp [cbcEncrypt]
  | p :: ps, prev, hprev, hall => by
    have hp : p.length = blockSize := hall p (by simp)
    have hc : (E (xorBytes p prev)).length = blockSize := by
      apply hE
      rw [xorBytes_length, hp, hprev]
      simp
    obtain ⟨ih1, ih2⟩ := cbcEncrypt_blocks E hE ps (E (xorBytes p prev)) hc
      (fun q hq => hall q (by simp [hq]))
    have hstep : cbcEncrypt E prev (p :: ps)
        = E (xorBytes p prev) :: cbcEncrypt E (E (xorBytes p prev)) ps := rfl
    refine ⟨?_, by rw [hstep]; simp [ih2]⟩
    intro c hcmem
    rw [hstep] at hcmem
    rcases List.mem_cons.mp hcmem with h' | h'
    · exact h' ▸ hc
    · exact ih1 _ h'

lemma cbcDecrypt_cbcEncrypt (E D : Bytes → Bytes)
    (hE : ∀ b, b.length = blockSize → (E b).length = blockSize)
    (hinv : ∀ b, b.length = blockSize → D (E b) = b) :
    ∀ (ps : List Bytes) (prev : Bytes), prev.length = blockSize →
      (∀ p ∈ ps, p.length = blockSize) →
      cbcDecrypt D prev (cbcEncrypt E prev ps) = ps
  | [], prev, _, _ => rfl
  | p :: ps, prev, hprev, hall => by
    have hp : p.length = blockSize := hall p (by simp)
    have hxor : (xorBytes p prev).length = blockSize := by
      rw [xorBytes_length, hp, hprev]; simp
    have hc : (E (xorBytes p prev)).length = blockSize := hE _ hxor
    simp only [cbcEncrypt, cbcDecrypt, List.cons.injEq]
    refine ⟨?_, cbcDecrypt_cbcEncrypt E D hE hinv ps _ hc
      (fun q hq => hall q (by simp [hq]))⟩
    rw [hinv _ hxor, xorBytes_cancel p prev (by rw [hp, hprev])]

/-- C1: for every 256-bit AES key and every plaintext byte string, symmetric
decryption inverts symmetric encryption: if `encrypt_aes(key, plaintext)`
returns `(iv, ciphertext)`, then `decrypt_aes(key, iv, ciphertext)` returns
exactly the original plaintext bytes. The AES-256 block permutation pair
`(E, D)` from the external `cryptography` library is abstracted by the
hypotheses that `E key` maps 16-byte blocks to 16-byte blocks and that
`D key` inverts it on 16-byte blocks. -/
theorem sym_encrypt_decrypt_roundtrip (E D : Bytes → Bytes → Bytes)
    (key iv text : Bytes) (_hkey : key.length = 32) (hiv : iv.length = blockSize)
    (hElen : ∀ b, b.length = blockSize → (E key b).length = blockSize)
    (hinv : ∀ b, b.length = blockSize → D key (E key b) = b) :
    decrypt_aes D key (encrypt_aes E key iv text).1
      (encrypt_aes E key iv text).2 = some text := by
  obtain ⟨hall, hflat, hcount⟩ := toBlocks_spec _ _ (pkcs7Pad_length text)
  obtain ⟨hclen, hccount⟩ :=
    cbcEncrypt_blocks (E key) hElen (toBlocks (pkcs7Pad text)) iv hiv hall
  have hctlen : (cbcEncrypt (E key) iv (toBlocks (pkcs7Pad text))).flatten.length
      = blockSize * (toBlocks (pkcs7Pad text)).length := by
    rw [flatten_length_of_blocks _ hclen, hccount]
  have hmod :
      (cbcEncrypt (E key) iv (toBlocks (pkcs7Pad text))).flatten.length
        % blockSize = 0 := by
    rw [hctlen]; simp [Nat.mul_mod_right]
  show decrypt_aes D key iv
    (cbcEncrypt (E key) iv (toBlocks (pkcs7Pad text))).flatten = some text
  rw [decrypt_aes, if_pos hmod, toBlocks_flatten _ hclen,
    cbcDecrypt_cbcEncrypt (E key) (D key) hElen hinv _ iv hiv hall,
    hflat, pkcs7Unpad_pad]

/-- Witness for C1: the round trip evaluated at one concrete key, IV and
plaintext (with the admissible identity instantiation of the abstract
block-permutation pair). -/
theorem sym_encrypt_decrypt_roundtrip_spot :
    decrypt_aes idCipher (List.replicate 32 7)
      (encrypt_aes idCipher (List.replicate 32 7) (List.replicate 16 0)
        [10, 20, 30]).1
      (encrypt_aes idCipher (List.replicate 32 7) (List.replicate 16 0)
        [10, 20, 30]).2 = some [10, 20, 30] :=
  sym_encrypt_decrypt_roundtrip idCipher idCipher (List.replicate 32 7)
    (List.replicate 16 0) [10, 20, 30] (by decide) (by decide)
    (fun _ hb => hb) (fun _ _ => rfl)

/-- C10: for every key and every plaintext of length `L`, `encrypt_aes`
returns an IV of exactly 16 bytes and a ciphertext of exactly
`16 * (L / 16 + 1)` bytes (PKCS7 always adds 1 to 16 padding bytes), so
the ciphertext is a non-empty multiple of 16 bytes strictly longer than
the plaintext, even when the plaintext is empty. -/
theorem encrypt_aes_output_lengths (E : Bytes → Bytes → Bytes)
    (key iv text : Bytes) (hiv : iv.length = 16)
    (hElen : ∀ b, b.length = blockSize → (E key b).length = blockSize) :
    (encrypt_aes E key iv text).1.length = 16 ∧
    (encrypt_aes E key iv text).2.length = 16 * (text.length / 16 + 1) ∧
    (encrypt_aes E key iv text).2.length % 16 = 0 ∧
    text.length < (encrypt_aes E key iv text).2.length ∧
    (encrypt_aes E key iv text).2 ≠ [] := by
  obtain ⟨hall, hflat, hcount⟩ := toBlocks_spec _ _ (pkcs7Pad_length text)
  obtain ⟨hclen, hccount⟩ :=
    cbcEncrypt_blocks (E key) hElen (toBlocks (pkcs7Pad text)) iv
      (by simpa [blockSize] using hiv) hall
  have hctlen : (encrypt_aes E key iv text).2.length
      = blockSize * (text.length / blockSize + 1) := by
    show (cbcEncrypt (E key) iv (toBlocks (pkcs7Pad text))).flatten.length = _
    rw [flatten_length_of_blocks _ hclen, hccount, hcount]
  simp only [blockSize] at hctlen
  refine ⟨hiv, hctlen, by rw [hctlen]; omega, ?_, ?_⟩
  · have hdm := Nat.div_add_mod text.length 16
    have hlt : text.length % 16 < 16 := Nat.mod_lt _ (by omega)
    omega
  · have : 0 < (encrypt_aes E key iv text).2.length := by rw [hctlen]; omega
    exact List.length_pos.mp this

lemma take_min (l : Bytes) (k : Nat) : l.take k = l.take (min k l.length) := by
  rcases Nat.le_total k l.length with h | h
  · rw [Nat.min_eq_left h]
  · rw [Nat.min_eq_right h, List.take_of_length_le h, List.take_length]

lemma recvPacket_length (avail : Bytes) (sched : List Nat) (n dlen : Nat) :
    (recvPacket avail sched n dlen).length
      = min (min (recvSize sched (recvWant n dlen)) (recvWant n dlen))
          avail.length := by
  simp [recvPacket, List.length_take]

lemma recvPacket_as_take (avail : Bytes) (sched : List Nat) (n dlen : Nat) :
    recvPacket avail sched n dlen
      = avail.take (recvPacket avail sched n dlen).length := by
  rw [recvPacket_length, recvPacket]
  exact take_min avail _

lemma recvWant_pos (n dlen : Nat) (h : dlen < n) : 1 ≤ recvWant n dlen := by
  simp [recvWant, MAX_CHUNK_SIZE]; omega

lemma recvSize_pos (sched : List Nat) (want : Nat) (h : 1 ≤ want) :
    1 ≤ recvSize sched want := by
  cases sched with
  | nil => simpa [recvSize] using h
  | cons s₀ rest => simp [recvSize]

lemma recvPacket_pos (avail : Bytes) (sched : List Nat) (n dlen : Nat)
    (hn : dlen < n) (ha : 1 ≤ avail.length) :
    1 ≤ (recvPacket avail sched n dlen).length := by
  rw [recvPacket_length]
  have h1 := recvWant_pos n dlen hn
  have h2 := recvSize_pos sched _ h1
  omega

lemma recvPacket_le (avail : Bytes) (sched : List Nat) (n dlen : Nat) :
    (recvPacket avail sched n dlen).length ≤ n - dlen := by
  rw [recvPacket_length]
  have : recvWant n dlen ≤ n - dlen := by simp [recvWant]
  omega

lemma recvAllGo_ok : ∀ (fuel : Nat) (avail : Bytes) (sched : List Nat)
    (n : Nat) (data : Bytes), avail.length ≤ fuel → data.length ≤ n →
    n - data.length ≤ avail.length →
    recvAllGo fuel avail sched n data
      = .ok (data ++ avail.take (n - data.length)) := by
  intro fuel
  induction fuel with
  | zero =>
    intro avail sched n data hf hd hn
    have hav : avail = [] := List.eq_nil_of_length_eq_zero (by omega)
    subst hav
    have hdn : data.length = n := by simp at hn; omega
    rw [recvAllGo, if_neg (by omega)]
    simp [hdn]
  | succ f ih =>
    intro avail sched n data hf hd hn
    by_cases hlt : data.length < n
    · have hav : 1 ≤ avail.length := by omega
      have hpos := recvPacket_pos avail sched n data.length hlt hav
      have hple := recvPacket_le avail sched n data.length
      rw [recvAllGo, if_pos hlt, if_neg (by omega)]
      set m := (recvPacket avail sched n data.length).length with hm
      have hplen : (recvPacket avail sched n data.length).length ≤ avail.length := by
        rw [recvPacket_length]; omega
      rw [ih (avail.drop m) sched.tail n (data ++ recvPacket avail sched n data.length)
        (by simp [List.length_drop]; omega)
        (by simp [← hm]; omega)
        (by simp [List.length_drop, ← hm]; omega)]
      rw [recvPacket_as_take, ← hm]
      have hlen2 : (data ++ List.take m avail).length = data.length + m := by
        simp only [List.length_append, List.length_take]
        omega
      rw [hlen2, List.append_assoc]
      congr 2
      have harr : n - (data.length + m) = n - data.length - m := by omega
      rw [harr, ← List.take_add,
        show m + (n - data.length - m) = n - data.length by omega]
    · have hdn : data.length = n := by omega
      rw [recvAllGo, if_neg (by omega)]
      simp [hdn]

lemma recvAllGo_error : ∀ (fuel : Nat) (avail : Bytes) (sched : List Nat)
    (n : Nat) (data : Bytes), avail.length ≤ fuel →
    data.length + avail.length < n →
    recvAllGo fuel avail sched n data = .error () := by
  intro fuel
  induction fuel with
  | zero =>
    intro avail sched n data hf hlt
    have hav : avail = [] := List.eq_nil_of_length_eq_zero (by omega)
    subst hav
    rw [recvAllGo, if_pos (by simp at hlt; omega)]
    rw [if_pos]
    rw [recvPacket, List.take_nil]
    rfl
  | succ f ih =>
    intro avail sched n data hf hlt
    have hllt : data.length < n := by omega
    rw [recvAllGo, if_pos hllt]
    rcases Nat.eq_zero_or_pos avail.length with hav | hav
    · have : avail = [] := List.eq_nil_of_length_eq_zero hav
      subst this
      rw [if_pos]
      rw [recvPacket, List.take_nil]
      rfl
    · have hpos := recvPacket_pos avail sched n data.length hllt hav
      rw [if_neg (by omega)]
      set m := (recvPacket avail sched n data.length).length with hm
      have hplen : (recvPacket avail sched n data.length).length ≤ avail.length := by
        rw [recvPacket_length]; omega
      exact ih (avail.drop m) sched.tail n
        (data ++ recvPacket avail sched n data.length)
        (by simp [List.length_drop]; omega)
        (by simp [List.length_drop, ← hm]; omega)

/-- C2: for every modelled socket stream and requested count `n`,
`recv_all` returns exactly `n` bytes whenever the peer supplies at least
`n` bytes, whatever the chunking schedule (never a short read), and raises
`ConnectionError` when the stream closes after delivering `k < n`
bytes. -/
theorem recv_all_exact_or_error (avail : Bytes) (sched : List Nat) (n : Nat) :
    (n ≤ avail.length →
      recv_all avail sched n = .ok (avail.take n) ∧
        (avail.take n).length = n) ∧
    (avail.length < n → recv_all avail sched n = .error ()) := by
  constructor
  · intro h
    constructor
    · rw [recv_all, recvAllGo_ok avail.length avail sched n [] le_rfl
        (by simp) (by simp; omega)]
      simp
    · simp [List.length_take]; omega
  · intro h
    rw [recv_all, recvAllGo_error avail.length avail sched n [] le_rfl
      (by simp; omega)]

/-- Witness for C2: a 5-byte stream delivered in chunks of 2, 2, 1 serves
a 5-byte request exactly, and the same stream fails a 9-byte request with
`ConnectionError`. -/
theorem recv_all_exact_or_error_spot :
    recv_all [1, 2, 3, 4, 5] [2, 2, 1] 5 = .ok [1, 2, 3, 4, 5] ∧
    recv_all [1, 2, 3, 4, 5] [4] 9 = .error () := by
  constructor
  · exact ((recv_all_exact_or_error [1, 2, 3, 4, 5] [2, 2, 1] 5).1
      (by decide)).1
  · exact (recv_all_exact_or_error [1, 2, 3, 4, 5] [4] 9).2 (by decide)

/-- Witness for C10: the length facts evaluated at one concrete key, IV and
an empty plaintext. -/
theorem encrypt_aes_output_lengths_spot :
    (encrypt_aes idCipher [1] (List.replicate 16 3) []).1.length = 16 ∧
    (encrypt_aes idCipher [1] (List.replicate 16 3) []).2.length
      = 16 * (([] : Bytes).length / 16 + 1) ∧
    (encrypt_aes idCipher [1] (List.replicate 16 3) []).2.length % 16 = 0 ∧
    ([] : Bytes).length < (encrypt_aes idCipher [1] (List.replicate 16 3) []).2.length ∧
    (encrypt_aes idCipher [1] (List.replicate 16 3) []).2 ≠ [] :=
  encrypt_aes_output_lengths idCipher [1] (List.replicate 16 3) []
    (by decide) (fun _ hb => hb)

lemma broadcastSends_eq (origin : Option Addr) (cmd : String)
    (fails : Addr → Bool) : ∀ reg : List (Addr × Key),
    broadcastSends origin cmd fails reg
      = ((reg.filter (fun p => decide (some p.1 ≠ origin) && !fails p.1)).map
          (fun p => ⟨p.1, p.2, cmd⟩),
         (reg.map Prod.fst).filter
          (fun a => decide (some a ≠ origin) && fails a))
  | [] => rfl
  | (a, k) :: rest => by
    have ih := broadcastSends_eq origin cmd fails rest
    by_cases ho : some a ≠ origin
    · by_cases hf : fails a = true
      · simp [broadcastSends, ih, ho, hf]
      · simp [broadcastSends, ih, ho, hf]
    · simp [broadcastSends, ih, ho]

lemma lookup_mem : ∀ (reg : List (Addr × Key)) (a : Addr) (v : Key),
    reg.lookup a = some v → (a, v) ∈ reg
  | [], a, v, h => by simp [List.lookup] at h
  | (b, k) :: rest, a, v, h => by
    rw [List.lookup] at h
    by_cases hab : a = b
    · subst hab
      simp at h
      simp [h]
    · have hne : (a == b) = false := by simp [hab]
      rw [hne] at h
      exact List.mem_cons_of_mem _ (lookup_mem rest a v h)

/-- C3: dispatching a global `pause`/`unpause` command sets (respectively
clears) the shared pause flag and sends the command to exactly the
registered peers other than the originating identity and other than those
whose send fails; a failing peer's handler is stopped and its entry
removed from the registry, and every remaining peer still receives the
command. -/
theorem pause_unpause_broadcast (pf : Bool) (reg : List (Addr × Key))
    (origin : Option Addr) (cmd : String) (fails : Addr → Bool)
    (h : cmd = "pause" ∨ cmd = "unpause") :
    (commandStep pf reg origin cmd fails).pauseFlag = decide (cmd = "pause") ∧
    (commandStep pf reg origin cmd fails).sends
      = (reg.filter (fun p => decide (some p.1 ≠ origin) && !fails p.1)).map
          (fun p => ⟨p.1, p.2, cmd⟩) ∧
    (commandStep pf reg origin cmd fails).stopped
      = (reg.map Prod.fst).filter (fun a => decide (some a ≠ origin) && fails a) ∧
    (commandStep pf reg origin cmd fails).registry
      = reg.filter (fun p => !(decide (some p.1 ≠ origin) && fails p.1)) := by
  have hstep : commandStep pf reg origin cmd fails
      = { pauseFlag := decide (cmd = "pause")
          registry := reg.filter
            (fun p => !(decide (some p.1 ≠ origin) && fails p.1))
          sends := (broadcastSends origin cmd fails reg).1
          stopped := (broadcastSends origin cmd fails reg).2
          cleanups := (broadcastSends origin cmd fails reg).2
          kicksUI := [] } := by
    rw [commandStep.eq_def, if_pos h]
  rw [hstep, broadcastSends_eq]
  exact ⟨rfl, rfl, rfl, rfl⟩

/-- Witness for C3: the spec's own example. Peers {1, 2, 3}, originator 1,
send to 2 fails: the pause flag is set, exactly peer 3 receives the
command, and 2 is stopped and removed while 3 keeps its entry. -/
theorem pause_unpause_broadcast_spot :
    (commandStep false [(1, [11]), (2, [22]), (3, [33])] (some 1) "pause"
        (fun a => a == 2)).pauseFlag = decide (("pause" : String) = "pause") ∧
    (commandStep false [(1, [11]), (2, [22]), (3, [33])] (some 1) "pause"
        (fun a => a == 2)).sends = [⟨3, [33], "pause"⟩] ∧
    (commandStep false [(1, [11]), (2, [22]), (3, [33])] (some 1) "pause"
        (fun a => a == 2)).stopped = [2] ∧
    (commandStep false [(1, [11]), (2, [22]), (3, [33])] (some 1) "pause"
        (fun a => a == 2)).registry = [(1, [11]), (3, [33])] := by
  have h := pause_unpause_broadcast false [(1, [11]), (2, [22]), (3, [33])]
    (some 1) "pause" (fun a => a == 2) (Or.inl rfl)
  refine ⟨h.1, h.2.1.trans (by decide), h.2.2.1.trans (by decide),
    h.2.2.2.trans (by decide)⟩

/-- C9 (implicit): a targeted command (not `pause`/`unpause`, not a
`resize`) whose target identity is not in the registry is consumed with no
observable effect: no send, no stop, no scheduled callback, registry and
pause flag unchanged. -/
theorem targeted_missing_noop (pf : Bool) (reg : List (Addr × Key))
    (tgt : Addr) (cmd : String) (fails : Addr → Bool)
    (h1 : cmd ≠ "pause") (h2 : cmd ≠ "unpause")
    (h3 : strStartsWith cmd "resize" = false)
    (h4 : reg.lookup tgt = none) :
    commandStep pf reg (some tgt) cmd fails
      = ⟨pf, reg, [], [], [], []⟩ := by
  rw [commandStep.eq_def, if_neg (by simp [h1, h2]), if_neg (by simp [h3])]
  simp only [h4]

/-- Witness for C9: a `block` command aimed at unregistered peer 9 leaves
the two-peer registry untouched and produces no effect. -/
theorem targeted_missing_noop_spot :
    commandStep true [(1, [11]), (2, [22])] (some 9) "block" (fun _ => false)
      = ⟨true, [(1, [11]), (2, [22])], [], [], [], []⟩ :=
  targeted_missing_noop true [(1, [11]), (2, [22])] 9 "block" (fun _ => false)
    (by decide) (by decide) (by decide) (by decide)

lemma applyOp_aesKey (s : ServerSt) (op : ServerOp) :
    (applyOp s op).aesKey = s.aesKey := by
  cases op <;> rfl

lemma applyOp_key_inv (s : ServerSt) (op : ServerOp)
    (h : ∀ p ∈ s.registry, p.2 = s.aesKey) :
    ∀ p ∈ (applyOp s op).registry, p.2 = (applyOp s op).aesKey := by
  rw [applyOp_aesKey]
  cases op with
  | register a =>
    show ∀ p ∈ (registerPeer s a).registry, p.2 = s.aesKey
    rw [registerPeer]
    by_cases hmem : s.registry.any (fun p => p.1 == a) = true
    · rw [if_pos hmem]
      intro p hp
      obtain ⟨q, hq, hqe⟩ := List.mem_map.mp hp
      by_cases hqa : (q.1 == a) = true
      · rw [if_pos hqa] at hqe
        rw [← hqe]
      · rw [if_neg (by simp_all)] at hqe
        exact hqe ▸ h q hq
    · rw [if_neg hmem]
      intro p hp
      rcases List.mem_append.mp hp with h' | h'
      · exact h p h'
      · simp at h'
        rw [h']
  | remove a =>
    show ∀ p ∈ (removePeer s a).registry, p.2 = s.aesKey
    rw [removePeer]
    intro p hp
    exact h p (List.mem_of_mem_filter hp)

lemma runOps_key_inv : ∀ (ops : List ServerOp) (s : ServerSt),
    (∀ p ∈ s.registry, p.2 = s.aesKey) →
    (runOps s ops).aesKey = s.aesKey ∧
      ∀ p ∈ (runOps s ops).registry, p.2 = s.aesKey
  | [], s, h => ⟨rfl, h⟩
  | op :: ops, s, h => by
    obtain ⟨h1, h2⟩ := runOps_key_inv ops (applyOp s op) (applyOp_key_inv s op h)
    rw [runOps]
    exact ⟨h1.trans (applyOp_aesKey s op),
      fun p hp => (h2 p hp).trans (applyOp_aesKey s op)⟩

lemma resizeTargets_sub (origin : Option Addr) (reg : List (Addr × Key)) :
    ∀ q ∈ resizeTargets origin reg, q ∈ reg := by
  intro q hq
  cases origin with
  | none => exact hq
  | some a =>
    simp only [resizeTargets] at hq
    cases hlk : reg.lookup a with
    | none =>
      rw [hlk] at hq
      simp at hq
    | some k =>
      rw [hlk] at hq
      simp at hq
      rw [hq]
      exact lookup_mem reg a k hlk

lemma commandStep_sends_mem (pf : Bool) (reg : List (Addr × Key))
    (origin : Option Addr) (cmd : String) (fails : Addr → Bool) :
    ∀ r ∈ (commandStep pf reg origin cmd fails).sends,
      (r.addr, r.key) ∈ reg ∧ r.cmd = cmd := by
  intro r hr
  rw [commandStep.eq_def] at hr
  split at hr
  · simp only [broadcastSends_eq] at hr
    obtain ⟨q, hq, hqe⟩ := List.mem_map.mp hr
    exact ⟨by rw [← hqe]; exact List.mem_of_mem_filter hq, by rw [← hqe]⟩
  · split at hr
    · simp only [broadcastSends_eq] at hr
      obtain ⟨q, hq, hqe⟩ := List.mem_map.mp hr
      refine ⟨?_, by rw [← hqe]⟩
      rw [← hqe]
      exact resizeTargets_sub origin reg q (List.mem_of_mem_filter hq)
    · split at hr
      · simp at hr
      · rename_i tgt
        split at hr
        · simp at hr
        · rename_i key hlk
          split at hr
          · simp at hr
          · split at hr
            · simp at hr
              rw [hr]
              exact ⟨lookup_mem reg tgt key hlk, rfl⟩
            · simp at hr
              rw [hr]
              exact ⟨lookup_mem reg tgt key hlk, rfl⟩

/-- C7: over one operator run the server generates exactly one symmetric
key at construction and distributes that same key to every registered
peer, whatever sequence of registrations and removals occurred; and every
command record the dispatcher emits is encrypted with the key looked up
from the target peer's registry entry — hence with that single key. -/
theorem operator_single_key (k : Key) (ops : List ServerOp) (pf : Bool)
    (origin : Option Addr) (cmd : String) (fails : Addr → Bool) :
    (∀ p ∈ (runOps (initServer k) ops).registry, p.2 = k) ∧
    (∀ r ∈ (commandStep pf (runOps (initServer k) ops).registry origin cmd
        fails).sends,
      (r.addr, r.key) ∈ (runOps (initServer k) ops).registry ∧ r.key = k) := by
  obtain ⟨h1, h2⟩ := runOps_key_inv ops (initServer k) (by simp [initServer])
  refine ⟨h2, fun r hr => ?_⟩
  obtain ⟨hmem, _⟩ := commandStep_sends_mem pf _ origin cmd fails r hr
  exact ⟨hmem, h2 _ hmem⟩

/-- Witness for C7: a run that registers peers 1 and 2, removes 1 and
re-registers it; both registry entries hold the construction key `[42]`,
and a broadcast `pause` emits sends keyed with `[42]` only. -/
theorem operator_single_key_spot :
    (∀ p ∈ (runOps (initServer [42])
        [ServerOp.register 1, ServerOp.register 2, ServerOp.remove 1,
         ServerOp.register 1]).registry, p.2 = [42]) ∧
    (∀ r ∈ (commandStep false (runOps (initServer [42])
        [ServerOp.register 1, ServerOp.register 2, ServerOp.remove 1,
         ServerOp.register 1]).registry none "pause" (fun _ => false)).sends,
      (r.addr, r.key) ∈ (runOps (initServer [42])
        [ServerOp.register 1, ServerOp.register 2, ServerOp.remove 1,
         ServerOp.register 1]).registry ∧ r.key = [42]) :=
  operator_single_key [42]
    [ServerOp.register 1, ServerOp.register 2, ServerOp.remove 1,
     ServerOp.register 1] false none "pause" (fun _ => false)

/-- C4: a dequeued frame with capture timestamp `t` is delivered to the
renderer if and only if its age at processing time is at most 0.5 s (500
ms) and either no peer is in exclusive full-view mode or the frame belongs
to that peer; in particular a frame polled 400 ms after capture is
delivered (no full-view peer) and one polled 600 ms after capture is
dropped. -/
theorem frame_consumer_delivery :
    (∀ (app : RendererState) (now t : Int) (addr : Addr),
      frameStep app now t addr = true ↔
        (now - t ≤ max_frame_age ∧
          (app.fullscreen_widget = false ∨
            app.fullscreen_address = some addr))) ∧
    (∀ (app : RendererState) (t : Int) (addr : Addr),
      app.fullscreen_widget = false → frameStep app (t + 400) t addr = true) ∧
    (∀ (app : RendererState) (t : Int) (addr : Addr),
      frameStep app (t + 600) t addr = false) := by
  have hbody : ∀ (app : RendererState) (now t : Int) (addr : Addr),
      frameStep app now t addr = true ↔
        (now - t ≤ max_frame_age ∧
          (app.fullscreen_widget = false ∨
            app.fullscreen_address = some addr)) := by
    intro app now t addr
    rw [frameStep]
    constructor
    · intro h
      split at h
      · split at h
        · rename_i hage hfs
          refine ⟨hage, ?_⟩
          rcases Bool.or_eq_true_iff.mp hfs with h' | h'
          · exact Or.inl (by simpa using h')
          · exact Or.inr (by simpa using h')
        · exact absurd h (by simp)
      · exact absurd h (by simp)
    · rintro ⟨hage, hfs⟩
      rw [if_pos hage, if_pos]
      rcases hfs with h' | h'
      · exact Bool.or_eq_true_iff.mpr (Or.inl (by simp [h']))
      · exact Bool.or_eq_true_iff.mpr (Or.inr (by simp [h']))
  refine ⟨hbody, ?_, ?_⟩
  · intro app t addr hfs
    rw [hbody]
    exact ⟨by simp only [max_frame_age]; omega, Or.inl hfs⟩
  · intro app t addr
    rw [frameStep, if_neg (by simp only [max_frame_age]; omega)]

/-- Witness for C4: a fresh frame (age 400 ms) from peer 5 with no
full-view peer is delivered; the same frame polled at age 600 ms is
dropped; and a fresh frame from peer 5 while peer 4 holds the full view is
not delivered (via the iff). -/
theorem frame_consumer_delivery_spot :
    frameStep ⟨false, none⟩ 1400 1000 5 = true ∧
    frameStep ⟨false, none⟩ 1600 1000 5 = false ∧
    frameStep ⟨true, some 4⟩ 1400 1000 5 = false := by
  refine ⟨frame_consumer_delivery.2.1 ⟨false, none⟩ 1000 5 rfl,
    frame_consumer_delivery.2.2 ⟨false, none⟩ 1000 5, ?_⟩
  have h := frame_consumer_delivery.1 ⟨true, some 4⟩ 1400 1000 5
  cases hb : frameStep ⟨true, some 4⟩ 1400 1000 5 with
  | false => rfl
  | true =>
    have := h.mp hb
    simp at this

/-- C8: a failure in capture, compression, or encryption (empty result or
raised exception) skips the cycle (nothing sent) with a backoff between
0.5 s and 1 s and never terminates the publisher loop — with the stop
flag never set, every queued cycle is still processed, and a set stop
flag is the only way the loop ends; moreover the cadence-maintaining
sleep is `max 0 (100 ms − elapsed)` on a successful cycle and no cycle
ever sleeps a negative duration. -/
theorem publisher_failures_nonfatal :
    (∀ c : CycleIn, c.paused = false → cycleStageFailed c →
      (screenShareCycle c).sent = false ∧
        500 ≤ (screenShareCycle c).sleepMs ∧
        (screenShareCycle c).sleepMs ≤ 1000) ∧
    (∀ c : CycleIn, c.paused = false →
      (∀ img, c.captureRes = some img → img ≠ []) →
      c.captureRes ≠ none →
      (∀ cb, c.compressRes = some cb → cb ≠ []) →
      c.compressRes ≠ none →
      (∀ eb, c.encryptRes = some eb → eb ≠ []) →
      c.encryptRes ≠ none →
      c.sendOk = true →
      (screenShareCycle c).sleepMs = max 0 (100 - c.elapsed) ∧
        (screenShareCycle c).sent = true) ∧
    (∀ c : CycleIn, 0 ≤ (screenShareCycle c).sleepMs) ∧
    (∀ steps : List (Bool × CycleIn), (∀ s ∈ steps, s.1 = false) →
      (screenShareRun steps).length = steps.length) ∧
    (∀ (c : CycleIn) (rest : List (Bool × CycleIn)),
      screenShareRun ((true, c) :: rest) = []) := by
  refine ⟨?_, ?_, ?_, ?_, ?_⟩
  · intro c hp hf
    rw [screenShareCycle.eq_def, if_neg (by simp [hp])]
    repeat' split
    all_goals try exact ⟨rfl, by decide, by decide⟩
    all_goals exfalso; simp_all [cycleStageFailed]
  · intro c hp h1 h2 h3 h4 h5 h6 h7
    rw [screenShareCycle.eq_def, if_neg (by simp [hp])]
    cases hcap : c.captureRes with
    | none => exact absurd hcap h2
    | some img =>
      dsimp only
      rw [if_neg (h1 img hcap)]
      cases hcomp : c.compressRes with
      | none => exact absurd hcomp h4
      | some cb =>
        dsimp only
        rw [if_neg (h3 cb hcomp)]
        cases henc : c.encryptRes with
        | none => exact absurd henc h6
        | some eb =>
          dsimp only
          rw [if_neg (h5 eb henc), if_pos h7]
          exact ⟨rfl, rfl⟩
  · intro c
    rw [screenShareCycle.eq_def]
    repeat' split
    all_goals first
      | decide
      | exact le_max_left 0 _
  · intro steps
    induction steps with
    | nil => intro _; rfl
    | cons s rest ih =>
      intro hall
      obtain ⟨stop, c⟩ := s
      have hs : stop = false := hall (stop, c) (List.mem_cons_self _ _)
      simp only [screenShareRun, hs, if_neg Bool.false_ne_true, List.length_cons]
      rw [ih (fun x hx => hall x (List.mem_cons_of_mem _ hx))]
  · intro c rest
    simp [screenShareRun]

/-- Witness for C8: a cycle whose compression returns an empty result is
skipped with a 0.5 s backoff; a fully successful cycle that took 30 ms
sends its frame and sleeps the remaining 70 ms; an all-clear stop-free
two-cycle queue is fully processed; and a set stop flag ends the loop at
once. -/
theorem publisher_failures_nonfatal_spot :
    (screenShareCycle ⟨false, some [1], some [], some [2], true, 30⟩).sent
      = false ∧
    500 ≤ (screenShareCycle
      ⟨false, some [1], some [], some [2], true, 30⟩).sleepMs ∧
    (screenShareCycle
      ⟨false, some [1], some [], some [2], true, 30⟩).sleepMs ≤ 1000 ∧
    (screenShareCycle ⟨false, some [1], some [2], some [3], true, 30⟩).sleepMs
      = max 0 (100 - 30) ∧
    (screenShareCycle ⟨false, some [1], some [2], some [3], true, 30⟩).sent
      = true ∧
    (0 : Int) ≤ (screenShareCycle
      ⟨false, some [1], some [2], some [3], true, 400⟩).sleepMs ∧
    (screenShareRun [(false, ⟨false, some [1], some [2], some [3], true, 30⟩),
      (false, ⟨true, none, none, none, false, 0⟩)]).length = 2 ∧
    screenShareRun [(true, ⟨false, some [1], some [2], some [3], true, 30⟩)]
      = [] := by
  refine ⟨?_, ?_, ?_, ?_, ?_, ?_, ?_, ?_⟩
  · exact (publisher_failures_nonfatal.1
      ⟨false, some [1], some [], some [2], true, 30⟩ rfl
      (Or.inr (Or.inr (Or.inr (Or.inl rfl))))).1
  · exact (publisher_failures_nonfatal.1
      ⟨false, some [1], some [], some [2], true, 30⟩ rfl
      (Or.inr (Or.inr (Or.inr (Or.inl rfl))))).2.1
  · exact (publisher_failures_nonfatal.1
      ⟨false, some [1], some [], some [2], true, 30⟩ rfl
      (Or.inr (Or.inr (Or.inr (Or.inl rfl))))).2.2
  · exact (publisher_failures_nonfatal.2.1
      ⟨false, some [1], some [2], some [3], true, 30⟩ rfl
      (fun img h => by rw [← Option.some.inj h]; decide) (by decide)
      (fun cb h => by rw [← Option.some.inj h]; decide) (by decide)
      (fun eb h => by rw [← Option.some.inj h]; decide) (by decide) rfl).1
  · exact (publisher_failures_nonfatal.2.1
      ⟨false, some [1], some [2], some [3], true, 30⟩ rfl
      (fun img h => by rw [← Option.some.inj h]; decide) (by decide)
      (fun cb h => by rw [← Option.some.inj h]; decide) (by decide)
      (fun eb h => by rw [← Option.some.inj h]; decide) (by decide) rfl).2
  · exact publisher_failures_nonfatal.2.2.1
      ⟨false, some [1], some [2], some [3], true, 400⟩
  · exact (publisher_failures_nonfatal.2.2.2.1
      [(false, ⟨false, some [1], some [2], some [3], true, 30⟩),
       (false, ⟨true, none, none, none, false, 0⟩)]
      (by intro x hx
          rcases List.mem_cons.mp hx with h | h
          · rw [h]
          · rw [List.mem_singleton.mp h])).trans rfl
  · exact publisher_failures_nonfatal.2.2.2.2
      ⟨false, some [1], some [2], some [3], true, 30⟩ []

/-- C5: a frame record whose 8-byte length field is zero is treated as a
connection failure, not a valid empty frame: the read loop terminates with
no frame enqueued from it, the socket is closed, and registry/renderer
cleanup is scheduled exactly when global shutdown is not already in
progress. -/
theorem zero_length_frame_fails (shutdown : Bool)
    (decrypt : Bytes → Bytes → Option Bytes)
    (decompress : Bytes → Option Bytes) (stream : Bytes)
    (h8 : 8 ≤ stream.length) (h0 : fromBytesBE (stream.take 8) = 0) :
    handlerRun shutdown decrypt decompress stream []
      = ⟨[], true, !shutdown⟩ := by
  rw [handlerRun.eq_def, if_neg (by omega)]
  simp only [h0]
  rw [if_pos trivial]

/-- Witness for C5: a stream starting with eight zero bytes (then junk)
fails the connection with no frame enqueued; cleanup is scheduled when
shutdown is not in progress and skipped when it is. -/
theorem zero_length_frame_fails_spot :
    handlerRun false (fun _ _ => none) (fun _ => none)
      [0, 0, 0, 0, 0, 0, 0, 0, 9, 9] [] = ⟨[], true, true⟩ ∧
    handlerRun true (fun _ _ => none) (fun _ => none)
      [0, 0, 0, 0, 0, 0, 0, 0, 9, 9] [] = ⟨[], true, false⟩ :=
  ⟨zero_length_frame_fails false (fun _ _ => none) (fun _ => none)
      [0, 0, 0, 0, 0, 0, 0, 0, 9, 9] (by decide) (by decide),
   zero_length_frame_fails true (fun _ _ => none) (fun _ => none)
      [0, 0, 0, 0, 0, 0, 0, 0, 9, 9] (by decide) (by decide)⟩

lemma clientCmd_pres (command : String) (s : ClientState) :
    (clientCmd command s).stopEventSet = s.stopEventSet ∧
    (clientCmd command s).disconnected = s.disconnected ∧
    (clientCmd command s).callbacks = s.callbacks ∧
    (clientCmd command s).screenSharePresent = s.screenSharePresent := by
  rw [clientCmd.eq_def]
  repeat' split
  all_goals simp

lemma clientLoop_kick : ∀ (pre post : List String) (s : ClientState),
    "kick" ∉ pre → s.stopEventSet = false →
    (clientLoop (pre ++ "kick" :: post) s).1 = "kicked from session" ∧
    (clientLoop (pre ++ "kick" :: post) s).2.stopEventSet = false ∧
    (clientLoop (pre ++ "kick" :: post) s).2.disconnected = s.disconnected ∧
    (clientLoop (pre ++ "kick" :: post) s).2.callbacks = s.callbacks ∧
    (clientLoop (pre ++ "kick" :: post) s).2.screenSharePresent
      = s.screenSharePresent
  | [], post, s, _, hstop => by
    simp only [List.nil_append, clientLoop]
    rw [if_neg (by rw [hstop]; exact Bool.false_ne_true), if_pos trivial]
    exact ⟨rfl, hstop, rfl, rfl, rfl⟩
  | c :: pre, post, s, hk, hstop => by
    have hc : ¬(c = "kick") := fun e => hk (e ▸ List.mem_cons_self c pre)
    obtain ⟨p1, p2, p3, p4⟩ := clientCmd_pres c s
    obtain ⟨i1, i2, i3, i4, i5⟩ := clientLoop_kick pre post (clientCmd c s)
      (fun h => hk (List.mem_cons_of_mem _ h)) (p1.trans hstop)
    rw [List.cons_append]
    simp only [clientLoop]
    rw [if_neg (by rw [hstop]; exact Bool.false_ne_true), if_neg hc]
    exact ⟨i1, i2, i3.trans p2, i4.trans p3, i5.trans p4⟩

/-- Counterexample to C6 as stated: the decrypted command `kick` ends the
loop with reason "kicked from session" — not the reason "kicked" the
claim names — and the disconnect collaborator receives that longer
string. -/
theorem kick_reason_counterexample :
    (clientLoop ["kick"] initClientState).1 = "kicked from session" ∧
    (clientRun ["kick"] initClientState).callbacks
      = ["kicked from session"] ∧
    ¬((clientLoop ["kick"] initClientState).1 = "kicked") ∧
    ¬((clientRun ["kick"] initClientState).callbacks = ["kicked"]) := by
  decide

/-- C6 (amended): receiving a decrypted command equal to `kick` terminates
the command loop with reason "kicked from session", and the resulting
teardown stops the Frame Publisher, releases any active input
suppression, closes the socket, and invokes the disconnect collaborator
exactly once with that reason — a second `stop`, with any reason, leaves
the state unchanged. -/
theorem kick_terminates_and_teardown (pre post : List String)
    (hk : "kick" ∉ pre) :
    (clientLoop (pre ++ "kick" :: post) initClientState).1
      = "kicked from session" ∧
    (clientRun (pre ++ "kick" :: post) initClientState).screenShareStopped
      = true ∧
    (clientRun (pre ++ "kick" :: post) initClientState).blocking = false ∧
    (clientRun (pre ++ "kick" :: post) initClientState).socketClosed = true ∧
    (clientRun (pre ++ "kick" :: post) initClientState).callbacks
      = ["kicked from session"] ∧
    ∀ r, clientStop r (clientRun (pre ++ "kick" :: post) initClientState)
      = clientRun (pre ++ "kick" :: post) initClientState := by
  obtain ⟨h1, h2, h3, h4, h5⟩ :=
    clientLoop_kick pre post initClientState hk rfl
  have hrun : clientRun (pre ++ "kick" :: post) initClientState
      = clientStop "kicked from session"
          (clientLoop (pre ++ "kick" :: post) initClientState).2 := by
    rw [clientRun, h1]
  have hne : ¬((clientLoop (pre ++ "kick" :: post) initClientState).2.disconnected
      = true) := by
    rw [h3]
    exact Bool.false_ne_true
  have hstop : clientStop "kicked from session"
      (clientLoop (pre ++ "kick" :: post) initClientState).2
      = { (clientLoop (pre ++ "kick" :: post) initClientState).2 with
          disconnected := true
          stopEventSet := true
          screenShareStopped :=
            if (clientLoop (pre ++ "kick" :: post) initClientState).2.screenSharePresent
            then true
            else (clientLoop (pre ++ "kick" :: post) initClientState).2.screenShareStopped
          blocking := false
          socketClosed := true
          callbacks := (clientLoop (pre ++ "kick" :: post) initClientState).2.callbacks
            ++ ["kicked from session"] } := by
    rw [clientStop, if_neg hne]
  refine ⟨h1, ?_, ?_, ?_, ?_, ?_⟩
  · rw [hrun, hstop]
    show (if (clientLoop (pre ++ "kick" :: post) initClientState).2.screenSharePresent
        = true then true
      else (clientLoop (pre ++ "kick" :: post) initClientState).2.screenShareStopped)
      = true
    rw [if_pos (by rw [h5]; rfl)]
  · rw [hrun, hstop]
  · rw [hrun, hstop]
  · rw [hrun, hstop]
    show (clientLoop (pre ++ "kick" :: post) initClientState).2.callbacks
      ++ ["kicked from session"] = ["kicked from session"]
    rw [h4]
    rfl
  · intro r
    rw [hrun, hstop, clientStop, if_pos rfl]

/-- Witness for C6 (amended): the loop `pause, block, kick, unpause`
terminates at the `kick` with reason "kicked from session", tears down
fully, calls back exactly once, and a repeated `stop "again"` changes
nothing. -/
theorem kick_terminates_and_teardown_spot :
    (clientLoop (["pause", "block"] ++ "kick" :: ["unpause"])
      initClientState).1 = "kicked from session" ∧
    (clientRun (["pause", "block"] ++ "kick" :: ["unpause"])
      initClientState).screenShareStopped = true ∧
    (clientRun (["pause", "block"] ++ "kick" :: ["unpause"])
      initClientState).blocking = false ∧
    (clientRun (["pause", "block"] ++ "kick" :: ["unpause"])
      initClientState).socketClosed = true ∧
    (clientRun (["pause", "block"] ++ "kick" :: ["unpause"])
      initClientState).callbacks = ["kicked from session"] ∧
    clientStop "again" (clientRun (["pause", "block"] ++ "kick" :: ["unpause"])
      initClientState)
      = clientRun (["pause", "block"] ++ "kick" :: ["unpause"])
          initClientState := by
  have h := kick_terminates_and_teardown ["pause", "block"] ["unpause"]
    (by decide)
  exact ⟨h.1, h.2.1, h.2.2.1, h.2.2.2.1, h.2.2.2.2.1, h.2.2.2.2.2 "again"⟩
